import Mathlib

/-!
Verification development for the gofastcaddy repository.

The Go sources are shallowly embedded here:
* `JVal` models Go's `map[string]interface{}` / JSON-like values
  (objects as association lists with unique-key map semantics).
* `NestedSetDict`, `PathToKeys`, `KeysToPath`, `Manager.InitPath`
  come from `internal/config/manager.go`.
* The route types come from `pkg/types`, and the route operations
  (`AddReverseProxy`, `AddWildcardRoute`, `AddSubReverseProxy`,
  `AddSubReverseProxyWithPorts`, `InitRoutes`) from `internal/routes`.
* `SetupPKITrust` comes from `internal/tls/manager.go`.
Remote I/O (`internal/api.Client`) is modelled as a request trace on the
success path, with existence probes answered by an oracle
`ex : String → Bool` standing for the remote tree's current contents.
-/

namespace GoFastCaddy

/-- JSON-like value, the shallow embedding of Go's `interface{}` as it
occurs in `map[string]interface{}` configuration data.  Objects are
association lists treated with map semantics (`jlookup` / `jset`). -/
inductive JVal : Type where
  | null : JVal
  | jstr (s : String) : JVal
  | jnum (n : Int) : JVal
  | jbool (b : Bool) : JVal
  | arr (xs : List JVal) : JVal
  | obj (fields : List (String × JVal)) : JVal
deriving Repr

/-- Go map read `m[k]`: the value stored at `k`, or `none` when absent. -/
def jlookup : List (String × JVal) → String → Option JVal
  | [], _ => none
  | (k', v) :: rest, k => if k' = k then some v else jlookup rest k

/-- Go map write `m[k] = v`: replaces the binding for `k` (Go map keys are
unique), appending a fresh binding when `k` is absent. -/
def jset : List (String × JVal) → String → JVal → List (String × JVal)
  | [], k, v => [(k, v)]
  | (k', v') :: rest, k, v =>
      if k' = k then (k, v) :: rest else (k', v') :: jset rest k v

/-- `config.NestedSetDict(dict, value, keys...)` from
`internal/config/manager.go`: walks all keys but the last, descending into
the stored sub-map when one is present and installing a fresh empty map
otherwise (in Go: when `current[key] == nil` or the stored value is not a
`map[string]interface{}`), then stores `value` at the last key.  An empty
key list returns `dict` unchanged. -/
def NestedSetDict (dict : List (String × JVal)) (value : JVal) :
    List String → List (String × JVal)
  | [] => dict
  | [k] => jset dict k value
  | k :: k2 :: rest =>
      let sub : List (String × JVal) :=
        match jlookup dict k with
        | some (JVal.obj m) => m
        | _ => []
      jset dict k (JVal.obj (NestedSetDict sub value (k2 :: rest)))

/-- Observer: read the value stored at a key path in a nested object,
descending only through object nodes. -/
def getAtPath (dict : List (String × JVal)) : List String → Option JVal
  | [] => some (JVal.obj dict)
  | [k] => jlookup dict k
  | k :: k2 :: rest =>
      match jlookup dict k with
      | some (JVal.obj m) => getAtPath m (k2 :: rest)
      | _ => none

/-- Go's `strings.Trim(s, "/")` on the character list: drop the character
`c` from both ends. -/
def trimCharList (c : Char) (l : List Char) : List Char :=
  ((l.dropWhile (· = c)).reverse.dropWhile (· = c)).reverse

/-- `config.PathToKeys(path)` from `internal/config/manager.go`:
`strings.Trim(path, "/")`, then `[]` for the empty result, otherwise
`strings.Split(path, "/")`. -/
def PathToKeys (path : String) : List String :=
  let t := trimCharList '/' path.data
  if t = [] then [] else (t.splitOn '/').map String.mk

/-- `config.KeysToPath(keys...)` from `internal/config/manager.go`:
`"/"` for no keys, otherwise `"/" + strings.Join(keys, "/")`. -/
def KeysToPath (keys : List String) : String :=
  if keys = [] then "/"
  else String.mk ('/' :: List.intercalate ['/'] (keys.map String.data))

/-- `types.RouteMatch` from `pkg/types`: host and path match lists. -/
structure RouteMatch : Type where
  host : List String
  path : List String
deriving Repr, DecidableEq

/-- `types.Upstream` from `pkg/types`: a single dial target. -/
structure Upstream : Type where
  dial : String
deriving Repr, DecidableEq

mutual

/-- `types.Route` from `pkg/types`: optional stable ID (empty string for
absent), match conditions, handler chain, terminal flag. -/
inductive Route : Type where
  | mk (id : String) (matchList : List RouteMatch) (handle : List Handler)
      (terminal : Bool) : Route

/-- `types.Handler` from `pkg/types`: handler discriminator, upstream
list (reverse proxy), nested route list (subroute). -/
inductive Handler : Type where
  | mk (handler : String) (upstreams : List Upstream)
      (routes : List Route) : Handler

end

def Route.id : Route → String
  | .mk i _ _ _ => i

def Route.matchList : Route → List RouteMatch
  | .mk _ m _ _ => m

def Route.handle : Route → List Handler
  | .mk _ _ h _ => h

def Route.terminal : Route → Bool
  | .mk _ _ _ t => t

def Handler.handler : Handler → String
  | .mk n _ _ => n

def Handler.upstreams : Handler → List Upstream
  | .mk _ u _ => u

def Handler.routes : Handler → List Route
  | .mk _ _ r => r

/-- The route built by `routes.Manager.AddReverseProxy` in
`internal/routes`: ID and host match `fromHost`, one reverse-proxy handler
with the single upstream `toURL`, terminal. -/
def mkProxyRoute (fromHost toURL : String) : Route :=
  Route.mk fromHost [⟨[fromHost], []⟩]
    [Handler.mk "reverse_proxy" [⟨toURL⟩] []] true

/-- `api.Client.HasID` over the route list holding the ID-carrying
routes: some route carries this ID. -/
def hasID (id : String) (s : List Route) : Bool :=
  s.any (fun r => r.id = id)

/-- `api.Client.DeleteByID` at the route-list level: the ID index
addresses a single route, so the (first) route carrying the ID is
removed. -/
def deleteByIDState (id : String) (s : List Route) : List Route :=
  s.eraseP (fun r => r.id = id)

/-- `routes.Manager.AddReverseProxy(fromHost, toURL)` at the route-list
level: when a route with ID `fromHost` exists it is deleted first, then
the new proxy route is appended (`AddRoute` POSTs to the routes list). -/
def addReverseProxyState (fromHost toURL : String) (s : List Route) :
    List Route :=
  let s1 := if hasID fromHost s then deleteByIDState fromHost s else s
  s1 ++ [mkProxyRoute fromHost toURL]

/-- The route built by `routes.Manager.AddWildcardRoute(domain)`: ID
`wildcard-<domain>`, host match `*.<domain>`, one subroute handler with an
empty nested route list, terminal. -/
def mkWildcardRoute (domain : String) : Route :=
  Route.mk ("wildcard-" ++ domain) [⟨["*." ++ domain], []⟩]
    [Handler.mk "subroute" [] []] true

/-- `routes.Manager.AddWildcardRoute(domain)` at the route-list level:
the wildcard route is appended unconditionally (no existence check, no
delete). -/
def addWildcardRouteState (domain : String) (s : List Route) :
    List Route :=
  s ++ [mkWildcardRoute domain]

/-- The child route built by `routes.Manager.AddSubReverseProxy`: ID and
host match `<subdomain>.<domain>`, a reverse-proxy handler dialling
`<host>:<port>` for each port in order (`host` defaults to `localhost`
when empty); the terminal flag is left at Go's `false` zero value. -/
def mkSubRoute (domain subdomain : String) (ports : List String)
    (host0 : String) : Route :=
  let host := if host0 = "" then "localhost" else host0
  let routeID := subdomain ++ "." ++ domain
  Route.mk routeID [⟨[routeID], []⟩]
    [Handler.mk "reverse_proxy" (ports.map fun p => ⟨host ++ ":" ++ p⟩) []]
    false

/-- Replace the first list element satisfying `p` by its image under
`f` (the remote ID index addresses one route). -/
def updateFirst (p : Route → Bool) (f : Route → Route) :
    List Route → List Route
  | [] => []
  | r :: rest => if p r then f r :: rest else r :: updateFirst p f rest

/-- Effect of POSTing routes to `<id>/handle/0/routes/...`: append them
to the nested route list of the route's first handler. -/
def Route.appendSubRoutes (r : Route) (new : List Route) : Route :=
  match r with
  | .mk i m hs t =>
      match hs with
      | [] => .mk i m [] t
      | h :: tl => .mk i m (.mk h.handler h.upstreams (h.routes ++ new) :: tl) t

/-- `routes.Manager.AddSubReverseProxy(domain, subdomain, ports, host)`
at the route-list level: the built child route is appended (via the
`.../routes/...` append marker) into the handler of the route addressed
by ID `wildcard-<domain>`; `none` when no route carries that ID (the
remote ID lookup fails). -/
def addSubReverseProxyState (domain subdomain : String)
    (ports : List String) (host : String) (s : List Route) :
    Option (List Route) :=
  let wid := "wildcard-" ++ domain
  if hasID wid s then
    some (updateFirst (fun r => r.id = wid)
      (fun r => r.appendSubRoutes [mkSubRoute domain subdomain ports host]) s)
  else none

/-- One request issued to the Caddy admin endpoint by `api.Client`.
`getConfig` is the read behind `HasPath` (an existence probe);
`putConfig` / `putById` carry a JSON body and an HTTP method;
`deleteById` removes the subtree addressed by an ID. -/
inductive CaddyReq : Type where
  | getConfig (path : String) : CaddyReq
  | putConfig (path : String) (body : JVal) (method : String) : CaddyReq
  | getById (id : String) : CaddyReq
  | putById (id : String) (body : JVal) (method : String) : CaddyReq
  | deleteById (id : String) : CaddyReq
deriving Repr

/-- A request that mutates the remote tree (anything but a read). -/
def CaddyReq.isWrite : CaddyReq → Bool
  | .getConfig _ => false
  | .getById _ => false
  | .putConfig _ _ _ => true
  | .putById _ _ _ => true
  | .deleteById _ => true

/-- A read request (existence probe / config fetch). -/
def CaddyReq.isProbe : CaddyReq → Bool
  | .getConfig _ => true
  | .getById _ => true
  | _ => false

/-- The loop of `config.Manager.InitPath` (`internal/config/manager.go`):
`currentKeys` grows by one key per iteration; iterations with index
`i < skip` issue nothing, every other iteration issues a POST of an empty
object to `KeysToPath(currentKeys...)`.  Returns the write paths in
program order. -/
def initPathLoop (keys cur : List String) (i skip : Nat) : List String :=
  match keys with
  | [] => []
  | k :: rest =>
      let cur2 := cur ++ [k]
      if i < skip then initPathLoop rest cur2 (i + 1) skip
      else KeysToPath cur2 :: initPathLoop rest cur2 (i + 1) skip

/-- Request trace of `config.Manager.InitPath(path, skip)` on the success
path: one unconditional `PutConfig({}, p, "POST")` per non-skipped level,
no reads. -/
def InitPathTrace (path : String) (skip : Nat) : List CaddyReq :=
  (initPathLoop (PathToKeys path) [] 0 skip).map
    (fun p => CaddyReq.putConfig p (JVal.obj []) "POST")

/-- `routes.ServersPath` constant from `internal/routes`. -/
def ServersPath : String := "/apps/http/servers"

/-- JSON body of the `types.HTTPServer` value built by
`routes.Manager.InitRoutes`: listen `:80`/`:443`, empty routes, protocols
`h1`/`h2`. -/
def httpServerBody : JVal :=
  JVal.obj
    [("listen", JVal.arr [JVal.jstr ":80", JVal.jstr ":443"]),
     ("routes", JVal.arr []),
     ("protocols", JVal.arr [JVal.jstr "h1", JVal.jstr "h2"])]

/-- Request trace of `routes.Manager.InitRoutes(serverName, skip)` on the
success path, with remote existence answered by the oracle `ex`: a
`HasPath(ServersPath)` probe first; when it reports existing, nothing
else; otherwise `InitPath(ServersPath, skip)` followed by a POST of the
server skeleton to `ServersPath/<serverName>`. -/
def InitRoutesTrace (ex : String → Bool) (serverName : String)
    (skip : Nat) : List CaddyReq :=
  CaddyReq.getConfig ServersPath ::
    (if ex ServersPath then []
     else InitPathTrace ServersPath skip ++
       [CaddyReq.putConfig (ServersPath ++ "/" ++ serverName)
         httpServerBody "POST"])

/-- The PKI certificate-authority path used by
`tls.Manager.SetupPKITrust`. -/
def pkiPath : String := "/apps/pki/certificate_authorities/local"

/-- JSON body of the `types.PKIConfig` value written by
`SetupPKITrust`. -/
def pkiBody (installTrust : Bool) : JVal :=
  JVal.obj [("install_trust", JVal.jbool installTrust)]

/-- Request trace of `tls.Manager.SetupPKITrust(installTrust)` from
`internal/tls/manager.go` on the success path: `nil` returns immediately
with no requests at all; an explicit boolean runs
`InitPath(pkiPath, 1)` and then POSTs the trust flag to `pkiPath`. -/
def SetupPKITrustTrace : Option Bool → List CaddyReq
  | none => []
  | some b =>
      InitPathTrace pkiPath 1 ++ [CaddyReq.putConfig pkiPath (pkiBody b) "POST"]

/-- A Go `interface{}` element inside a `[]interface{}` ports list.
`float` carries the exact rational value of the `float64` (every claim
input, e.g. `8080.0`, is exactly representable); `jbool`/`null` stand for
the element types the inner switch does not mention. -/
inductive PortVal : Type where
  | str (s : String) : PortVal
  | int (n : Int) : PortVal
  | float (q : ℚ) : PortVal
  | jbool (b : Bool) : PortVal
  | null : PortVal
deriving Repr, DecidableEq

/-- The top-level Go `interface{}` ports argument of
`AddSubReverseProxyWithPorts`.  `other` stands for any dynamic type not
named in the type switch, carrying its `%T` name. -/
inductive PortArg : Type where
  | str (s : String) : PortArg
  | int (n : Int) : PortArg
  | strList (xs : List String) : PortArg
  | intList (xs : List Int) : PortArg
  | anyList (xs : List PortVal) : PortArg
  | other (tyName : String) : PortArg
deriving Repr, DecidableEq

/-- Go's `int(f)` conversion on a `float64` holding the exact rational
`q`: truncation toward zero. -/
def goFloat64ToInt (q : ℚ) : Int :=
  q.num.tdiv (q.den : Int)

/-- One step of the inner `switch` of `AddSubReverseProxyWithPorts` over
a `[]interface{}` element: strings pass through, ints go through
`strconv.Itoa`, `float64`s are truncated then formatted; any other
element matches no case and is skipped. -/
def portElem : PortVal → Option String
  | .str s => some s
  | .int n => some (toString n)
  | .float q => some (toString (goFloat64ToInt q))
  | .jbool _ => none
  | .null => none

/-- The inner loop of the `[]interface{}` case, written as Go executes
it: fold over the elements, appending the converted ones. -/
def portFold (xs : List PortVal) : List String :=
  xs.foldl (fun acc p =>
    match portElem p with
    | some s => acc ++ [s]
    | none => acc) []

/-- Normalization error from `AddSubReverseProxyWithPorts`: the Go
`fmt.Errorf` for a ports argument of unsupported dynamic type. -/
inductive PortErr : Type where
  | unsupportedPortType (tyName : String) : PortErr
deriving Repr, DecidableEq

/-- The ports type switch of
`routes.Manager.AddSubReverseProxyWithPorts` (`internal/routes`): a
single string or int becomes a one-element list, `[]string` passes
through, `[]int` maps through `strconv.Itoa`, `[]interface{}` runs the
inner element switch, and any other type is rejected. -/
def normalizePorts : PortArg → Except PortErr (List String)
  | .str s => .ok [s]
  | .int n => .ok [toString n]
  | .strList xs => .ok xs
  | .intList xs => .ok (xs.map toString)
  | .anyList xs => .ok (portFold xs)
  | .other tyName => .error (.unsupportedPortType tyName)

/-! ### Lemmas about the map model -/

theorem jlookup_jset_self (m : List (String × JVal)) (k : String) (v : JVal) :
    jlookup (jset m k v) k = some v := by
  induction m with
  | nil => simp [jset, jlookup]
  | cons hd rest ih =>
      obtain ⟨k', v'⟩ := hd
      by_cases h : k' = k
      · simp [jset, h, jlookup]
      · simp [jset, h, jlookup, ih]

theorem getAtPath_NestedSetDict (v : JVal) :
    ∀ ks : List String, ks ≠ [] →
      ∀ r : List (String × JVal),
        getAtPath (NestedSetDict r v ks) ks = some v := by
  intro ks
  induction ks with
  | nil => intro h; exact absurd rfl h
  | cons k rest ih =>
      intro _ r
      cases rest with
      | nil => simp [NestedSetDict, getAtPath, jlookup_jset_self]
      | cons k2 rest2 =>
          simp only [NestedSetDict, getAtPath]
          rw [jlookup_jset_self]
          exact ih (by simp) _

/-- C4: looking up a non-empty key sequence in the result of
`NestedSetDict` yields exactly the stored value — for every prior root,
including one holding a non-container value along the way — and the empty
key sequence returns the root unchanged. -/
theorem nestedSetDict_sets_value (r : List (String × JVal)) (v : JVal)
    (ks : List String) :
    (ks ≠ [] → getAtPath (NestedSetDict r v ks) ks = some v) ∧
    NestedSetDict r v [] = r :=
  ⟨fun h => getAtPath_NestedSetDict v ks h r, rfl⟩

/-- C4 witness: setting `x` at `a/b` over a root where `a` holds the
scalar `3` (a non-container) succeeds, and the lookup returns `x`. -/
theorem nestedSetDict_sets_value_witness :
    getAtPath (NestedSetDict [("a", JVal.jnum 3)] (JVal.jstr "x")
      ["a", "b"]) ["a", "b"] = some (JVal.jstr "x") :=
  (nestedSetDict_sets_value [("a", JVal.jnum 3)] (JVal.jstr "x")
    ["a", "b"]).1 (by simp)

/-! ### Lemmas about route upsert -/

theorem filter_eraseP {α : Type} (p : α → Bool) :
    ∀ l : List α, (l.eraseP p).filter p = (l.filter p).drop 1 := by
  intro l
  induction l with
  | nil => rfl
  | cons a l ih =>
      cases hpa : p a with
      | true => simp [List.eraseP_cons, hpa, List.filter_cons]
      | false => simp [List.eraseP_cons, hpa, List.filter_cons, ih]

theorem filter_addReverseProxyState (X u : String) (s : List Route)
    (h : (s.filter (fun r => r.id = X)).length ≤ 1) :
    (addReverseProxyState X u s).filter (fun r => r.id = X) =
      [mkProxyRoute X u] := by
  have hid : (mkProxyRoute X u).id = X := rfl
  unfold addReverseProxyState
  cases hex : hasID X s with
  | true =>
      simp only [hex, if_true, List.filter_append]
      unfold deleteByIDState
      rw [filter_eraseP]
      have hne : s.filter (fun r => r.id = X) ≠ [] := by
        rcases List.any_eq_true.mp hex with ⟨r, hr, hrX⟩
        exact List.ne_nil_of_mem (List.mem_filter.mpr ⟨hr, hrX⟩)
      have hpos : 0 < (s.filter (fun r => r.id = X)).length :=
        List.length_pos.mpr hne
      rw [List.drop_eq_nil_of_le h]
      simp [List.filter_cons, hid]
  | false =>
      have hnil : s.filter (fun r => r.id = X) = [] := by
        unfold hasID at hex
        rw [List.filter_eq_nil_iff]
        intro r hr
        have := List.any_eq_false.mp hex r hr
        simpa using this
      simp [hex, hnil, List.filter_append, List.filter_cons, hid]

/-- C5: `AddReverseProxy` is a last-write-wins upsert keyed by ID —
starting from any route list holding at most one route with ID `X`,
adding a route with ID `X` and then a different route with the same ID
leaves exactly one route with ID `X`, equal to the second one. -/
theorem addReverseProxy_last_write_wins (s : List Route) (X u1 u2 : String)
    (h : (s.filter (fun r => r.id = X)).length ≤ 1) :
    ((addReverseProxyState X u2 (addReverseProxyState X u1 s)).filter
      (fun r => r.id = X)) = [mkProxyRoute X u2] := by
  have h1 := filter_addReverseProxyState X u1 s h
  refine filter_addReverseProxyState X u2 _ ?_
  rw [h1]
  simp

/-- C5 witness: upserting `x.com → localhost:3000` then
`x.com → localhost:4000` over the empty route list leaves exactly the
second proxy route under ID `x.com`. -/
theorem addReverseProxy_last_write_wins_witness :
    ((addReverseProxyState "x.com" "localhost:4000"
        (addReverseProxyState "x.com" "localhost:3000" [])).filter
      (fun r => r.id = "x.com")) =
      [mkProxyRoute "x.com" "localhost:4000"] :=
  addReverseProxy_last_write_wins [] "x.com" "localhost:3000"
    "localhost:4000" (by simp)

/-- C6: `AddWildcardRoute("example.com")` followed by
`AddSubReverseProxy("example.com", "api", ["8080","8081"], "127.0.0.1")`
yields the terminal wildcard route `wildcard-example.com` matching
`*.example.com`, whose nested route list holds exactly one entry with ID
`api.example.com`, host match `["api.example.com"]`, and upstreams
`127.0.0.1:8080`, `127.0.0.1:8081` in that order. -/
theorem wildcard_composition_scenario :
    addSubReverseProxyState "example.com" "api" ["8080", "8081"]
      "127.0.0.1" (addWildcardRouteState "example.com" []) =
    some [Route.mk "wildcard-example.com" [⟨["*.example.com"], []⟩]
      [Handler.mk "subroute" []
        [Route.mk "api.example.com" [⟨["api.example.com"], []⟩]
          [Handler.mk "reverse_proxy"
            [⟨"127.0.0.1:8080"⟩, ⟨"127.0.0.1:8081"⟩] []]
          false]] true] := by
  rfl

/-- C2 counterexample: neither `AddWildcardRoute` nor
`AddSubReverseProxy` removes an existing occupant of its ID — running
`AddWildcardRoute("example.com")` twice on an empty route list leaves two
routes with ID `wildcard-example.com`, and running the sub-route append
twice leaves two nested routes with ID `api.example.com`. -/
theorem routeID_duplicate_counterexample :
    ((addWildcardRouteState "example.com"
        (addWildcardRouteState "example.com" [])).filter
      (fun r => r.id = "wildcard-example.com")).length = 2 ∧
    ((addSubReverseProxyState "example.com" "api" ["8080"] ""
        (addWildcardRouteState "example.com" [])).bind
      (addSubReverseProxyState "example.com" "api" ["8080"] "")).map
      (fun s =>
        (((s.headD (mkWildcardRoute "z")).handle.headD
            (Handler.mk "" [] [])).routes.filter
          (fun r => r.id = "api.example.com")).length) = some 2 := by
  constructor
  · rfl
  · rfl

/-- C2 (amended): only the reverse-proxy upsert enforces ID uniqueness —
after `AddReverseProxy` at most one route with the given ID exists
(provided at most one existed before), while `AddWildcardRoute` appends
its route unconditionally, without removing an existing occupant of the
same ID (and the sub-route append behaves likewise). -/
theorem addRoute_id_uniqueness_amended :
    (∀ (s : List Route) (f u : String),
      (s.filter (fun r => r.id = f)).length ≤ 1 →
      ((addReverseProxyState f u s).filter (fun r => r.id = f)).length = 1) ∧
    (∀ (d : String) (s : List Route),
      addWildcardRouteState d s = s ++ [mkWildcardRoute d]) := by
  constructor
  · intro s f u h
    rw [filter_addReverseProxyState f u s h]
    rfl
  · intro d s
    rfl

/-- C2 witness: the amended uniqueness property at a concrete input —
upserting over a list already holding a route with ID `a.com` leaves
exactly one route with that ID. -/
theorem addRoute_id_uniqueness_amended_witness :
    ((addReverseProxyState "a.com" "localhost:9"
        [mkProxyRoute "a.com" "localhost:1"]).filter
      (fun r => r.id = "a.com")).length = 1 :=
  addRoute_id_uniqueness_amended.1 [mkProxyRoute "a.com" "localhost:1"]
    "a.com" "localhost:9" (by decide)

/-! ### Port normalization -/

theorem portFold_eq_filterMap (xs : List PortVal) :
    portFold xs = xs.filterMap portElem := by
  unfold portFold
  suffices h : ∀ acc : List String,
      (xs.foldl (fun acc p =>
        match portElem p with
        | some s => acc ++ [s]
        | none => acc) acc) = acc ++ xs.filterMap portElem by
    exact (h []).trans (List.nil_append _)
  induction xs with
  | nil => intro acc; simp
  | cons p rest ih =>
      intro acc
      cases hp : portElem p with
      | some s => simp [List.foldl_cons, hp, ih, List.filterMap_cons]
      | none => simp [List.foldl_cons, hp, ih, List.filterMap_cons]

/-- C3 counterexample: a heterogeneous ports list whose element is a
boolean — neither a string nor integer-like — does not fail with an
unsupported-port-type error: the element is silently skipped and
normalization succeeds with an empty port list. -/
theorem normalizePorts_skips_bad_element_counterexample :
    normalizePorts (.anyList [.jbool true]) = .ok [] := rfl

/-- C3 (amended): a single string or integer normalizes to a one-element
list; a heterogeneous list normalizes element-wise in order, converting
strings, integers, and floats (truncating, e.g. `8080.0` to `"8080"`)
and silently dropping any other element; the unsupported-port-type error
is raised only when the ports argument as a whole has an unsupported
dynamic type. -/
theorem normalizePorts_amended :
    (∀ s : String, normalizePorts (.str s) = .ok [s]) ∧
    (∀ n : Int, normalizePorts (.int n) = .ok [toString n]) ∧
    (∀ xs : List PortVal,
      normalizePorts (.anyList xs) = .ok (xs.filterMap portElem)) ∧
    (normalizePorts (.anyList [.float (8080 : ℚ)]) = .ok ["8080"]) ∧
    (∀ t : String,
      normalizePorts (.other t) = .error (.unsupportedPortType t)) := by
  refine ⟨fun s => rfl, fun n => rfl, fun xs => ?_, rfl, fun t => rfl⟩
  simp [normalizePorts, portFold_eq_filterMap]

/-! ### InitPath traces -/

theorem initPathLoop_eq :
    ∀ (keys cur : List String) (i skip : Nat),
      initPathLoop keys cur i skip =
        ((List.range keys.length).filter (fun j => skip ≤ i + j)).map
          (fun j => KeysToPath (cur ++ keys.take (j + 1))) := by
  intro keys
  induction keys with
  | nil => intro cur i skip; simp [initPathLoop]
  | cons k rest ih =>
      intro cur i skip
      have hrec := ih (cur ++ [k]) (i + 1) skip
      have hpred : ((fun j => decide (skip ≤ i + j)) ∘ Nat.succ) =
          fun j => decide (skip ≤ i + 1 + j) := by
        funext j
        have harith : i + Nat.succ j = i + 1 + j := by omega
        simp [Function.comp, harith]
      have heq :
          ((fun j => KeysToPath (cur ++ List.take (j + 1) (k :: rest))) ∘
              Nat.succ) =
          fun j => KeysToPath (cur ++ [k] ++ rest.take (j + 1)) := by
        funext j
        simp [List.take_succ_cons, List.append_assoc]
      simp only [initPathLoop]
      rw [List.length_cons, List.range_succ_eq_map, List.filter_cons,
        List.filter_map]
      rcases Nat.lt_or_ge i skip with hskip | hskip
      · have hc : decide (skip ≤ i + 0) = false := by
          simp only [decide_eq_false_iff_not]
          omega
        rw [if_pos hskip, hrec, hc]
        simp only [Bool.false_eq_true, if_false]
        rw [List.map_map, hpred, heq]
      · have hc : decide (skip ≤ i + 0) = true := by
          simp only [decide_eq_true_eq]
          omega
        rw [if_neg (by omega), hrec, hc]
        simp only [if_true]
        rw [List.map_cons, List.map_map, hpred, heq]
        simp [List.take_succ_cons]

/-- C8: `InitPath` never touches a level below `skipLevels`: its trace is
exactly one write per index `i` with `skip ≤ i`, in increasing (shallowest
to deepest) order, each targeting the sub-path of the first `i+1` keys —
and it contains no read at all. -/
theorem initPath_skip_and_order (path : String) (skip : Nat) :
    InitPathTrace path skip =
      (((List.range (PathToKeys path).length).filter (fun i => skip ≤ i)).map
        (fun i => KeysToPath ((PathToKeys path).take (i + 1)))).map
        (fun p => CaddyReq.putConfig p (JVal.obj []) "POST") ∧
    (InitPathTrace path skip).filter CaddyReq.isProbe = [] := by
  constructor
  · unfold InitPathTrace
    rw [initPathLoop_eq]
    simp [Nat.zero_add]
  · rw [List.filter_eq_nil_iff]
    intro rq hrq
    rcases List.mem_map.mp hrq with ⟨p, _, rfl⟩
    simp [CaddyReq.isProbe]

/-- C1 (amended): `InitPath` issues no existence probe; every request in
its trace is a write, and it writes exactly one (empty-container) level
per non-skipped index regardless of the remote state — so a second call
with the same arguments issues the identical writes again rather than
none. -/
theorem initPath_no_probe_unconditional_writes (path : String)
    (skip : Nat) :
    (InitPathTrace path skip).filter CaddyReq.isProbe = [] ∧
    (InitPathTrace path skip).filter CaddyReq.isWrite =
      InitPathTrace path skip ∧
    (InitPathTrace path skip).length =
      ((List.range (PathToKeys path).length).filter
        (fun i => skip ≤ i)).length := by
  refine ⟨?_, ?_, ?_⟩
  · rw [List.filter_eq_nil_iff]
    intro rq hrq
    rcases List.mem_map.mp hrq with ⟨p, _, rfl⟩
    simp [CaddyReq.isProbe]
  · rw [List.filter_eq_self]
    intro rq hrq
    rcases List.mem_map.mp hrq with ⟨p, _, rfl⟩
    simp [CaddyReq.isWrite]
  · unfold InitPathTrace
    rw [initPathLoop_eq]
    simp [Nat.zero_add]

/-- C1 counterexample: against any remote state — in particular one where
every level of `/apps/tls/automation` already exists, e.g. right after a
first identical call — `InitPath("/apps/tls/automation", 0)` issues zero
existence probes and three writes (its trace does not depend on the
remote state at all), contradicting probe-before-write and second-call
quiescence. -/
theorem initPath_second_call_counterexample :
    (InitPathTrace "/apps/tls/automation" 0).filter CaddyReq.isProbe
      = [] ∧
    ((InitPathTrace "/apps/tls/automation" 0).filter
      CaddyReq.isWrite).length = 3 := by
  constructor
  · rfl
  · rfl

/-- C9: `SetupPKITrust` with an absent flag issues no request at all
(zero writes, remote tree untouched); with an explicit boolean it runs
`InitPath(pkiPath, 1)` — the hierarchy init skipping one leading level —
and then writes the trust flag to the PKI path. -/
theorem setupPKITrust_noop_and_writes :
    SetupPKITrustTrace none = [] ∧
    ∀ b : Bool,
      SetupPKITrustTrace (some b) =
        InitPathTrace pkiPath 1 ++
          [CaddyReq.putConfig pkiPath (pkiBody b) "POST"] :=
  ⟨rfl, fun _ => rfl⟩

/-- C10: when the servers path already exists remotely, `InitRoutes`
issues no write (only the existence probe), leaving the remote tree
unchanged, and its behavior does not depend on the `serverName`
argument. -/
theorem initRoutes_existing_no_write (ex : String → Bool)
    (serverName : String) (skip : Nat) (h : ex ServersPath = true) :
    (InitRoutesTrace ex serverName skip).filter CaddyReq.isWrite = [] ∧
    ∀ other : String,
      InitRoutesTrace ex serverName skip =
        InitRoutesTrace ex other skip := by
  constructor
  · unfold InitRoutesTrace
    rw [h]
    simp [CaddyReq.isWrite]
  · intro other
    unfold InitRoutesTrace
    rw [h]
    simp

/-- C10 witness: with a remote where every path exists, `InitRoutes`
issues no write. -/
theorem initRoutes_existing_no_write_witness :
    (InitRoutesTrace (fun _ => true) "srv0" 1).filter CaddyReq.isWrite
      = [] :=
  (initRoutes_existing_no_write (fun _ => true) "srv0" 1 rfl).1

/-! ### Path codec round trip -/

theorem string_mk_data : ∀ s : String, String.mk s.data = s
  | ⟨_⟩ => rfl

theorem string_data_ne_nil (s : String) (h : s ≠ "") : s.data ≠ [] := by
  intro hd
  apply h
  cases s with
  | mk l =>
      simp only [String.data] at hd
      subst hd
      rfl

theorem intercalate_cons_cons_char (c : Char) (l b : List Char)
    (t : List (List Char)) :
    List.intercalate [c] (l :: b :: t) =
      l ++ c :: List.intercalate [c] (b :: t) := by
  simp [List.intercalate, List.intersperse_cons_cons]

theorem intercalate_eq_flatMap (c : Char) :
    ∀ (L : List (List Char)) (l : List Char),
      List.intercalate [c] (l :: L) = l ++ L.flatMap (fun x => c :: x) := by
  intro L
  induction L with
  | nil => intro l; simp [List.intercalate]
  | cons b t ih =>
      intro l
      rw [intercalate_cons_cons_char, ih b]
      simp [List.flatMap_cons, List.append_assoc]

theorem flatMap_concat_sep (c : Char) :
    ∀ (M : List (List Char)) (l : List Char),
      (M ++ [l]).flatMap (fun x => c :: x) =
        ([c] ++ M.flatMap (fun x => x ++ [c])) ++ l := by
  intro M
  induction M with
  | nil => intro l; simp
  | cons b M' ih =>
      intro l
      simp only [List.cons_append, List.flatMap_cons, ih l]
      simp [List.append_assoc]

theorem intercalate_concat (c : Char) (M : List (List Char))
    (w : List Char) :
    List.intercalate [c] (M ++ [w]) =
      M.flatMap (fun x => x ++ [c]) ++ w := by
  cases M with
  | nil => simp [List.intercalate]
  | cons a M' =>
      rw [List.cons_append, intercalate_eq_flatMap, flatMap_concat_sep]
      simp [List.flatMap_cons, List.append_assoc]

theorem dropWhile_append_ne (p : Char → Bool) (u v : List Char)
    (hu : u ≠ []) (h : ∀ x ∈ u, p x = false) :
    (u ++ v).dropWhile p = u ++ v := by
  cases u with
  | nil => exact absurd rfl hu
  | cons a u' =>
      have ha : p a = false := h a (by simp)
      simp [List.dropWhile_cons, ha]

theorem trim_slash_intercalate (L : List (List Char)) (hne : L ≠ [])
    (h : ∀ l ∈ L, l ≠ [] ∧ '/' ∉ l) :
    trimCharList '/' ('/' :: List.intercalate ['/'] L) =
      List.intercalate ['/'] L := by
  obtain ⟨l0, L', rfl⟩ : ∃ l0 L', L = l0 :: L' := by
    cases L with
    | nil => exact absurd rfl hne
    | cons a b => exact ⟨a, b, rfl⟩
  have h0 := h l0 (by simp)
  unfold trimCharList
  have s1 : (('/' :: List.intercalate ['/'] (l0 :: L')).dropWhile
      (· = '/')) = List.intercalate ['/'] (l0 :: L') := by
    rw [List.dropWhile_cons_of_pos (by simp), intercalate_eq_flatMap]
    refine dropWhile_append_ne _ _ _ h0.1 ?_
    intro x hx
    simp only [decide_eq_false_iff_not]
    intro hxc
    exact h0.2 (hxc ▸ hx)
  rw [s1]
  obtain ⟨M, w, hMw⟩ : ∃ M w, l0 :: L' = M ++ [w] := by
    rcases List.eq_nil_or_concat (l0 :: L') with hnil | ⟨M, w, hMw⟩
    · simp at hnil
    · exact ⟨M, w, by simpa [List.concat_eq_append] using hMw⟩
  have hw := h w (by rw [hMw]; simp)
  have s2 : ((List.intercalate ['/'] (l0 :: L')).reverse.dropWhile
      (· = '/')) = (List.intercalate ['/'] (l0 :: L')).reverse := by
    rw [hMw, intercalate_concat, List.reverse_append]
    refine dropWhile_append_ne _ _ _ ?_ ?_
    · simpa using hw.1
    · intro x hx
      simp only [decide_eq_false_iff_not]
      intro hxc
      exact hw.2 (hxc ▸ List.mem_reverse.mp hx)
  rw [s2, List.reverse_reverse]

theorem pathToKeys_keysToPath (keys : List String)
    (h : ∀ k ∈ keys, k ≠ "" ∧ '/' ∉ k.data) :
    PathToKeys (KeysToPath keys) = keys := by
  cases keys with
  | nil => rfl
  | cons k0 rest =>
      have hL : ∀ l ∈ (k0 :: rest).map String.data,
          l ≠ [] ∧ '/' ∉ l := by
        intro l hl
        rcases List.mem_map.mp hl with ⟨k, hk, rfl⟩
        exact ⟨string_data_ne_nil k (h k hk).1, (h k hk).2⟩
      have hdata : (KeysToPath (k0 :: rest)).data =
          '/' :: List.intercalate ['/'] ((k0 :: rest).map String.data) := by
        unfold KeysToPath
        rw [if_neg (by simp)]
      have hJne :
          List.intercalate ['/'] ((k0 :: rest).map String.data) ≠ [] := by
        rw [List.map_cons, intercalate_eq_flatMap]
        intro hnil
        rw [List.append_eq_nil] at hnil
        exact (hL k0.data (by simp)) |>.1 hnil.1
      unfold PathToKeys
      rw [hdata, trim_slash_intercalate _ (by simp) hL, if_neg hJne,
        List.splitOn_intercalate _ '/' (fun l hl => (hL l hl).2) (by simp),
        List.map_map]
      have hid : (String.mk ∘ String.data) = id := funext string_mk_data
      rw [hid, List.map_id]

/-- A normalized path in the sense of the data model: the serialization
of a key sequence whose keys are nonempty and separator-free. -/
def NormalizedPath (p : String) : Prop :=
  ∃ keys : List String,
    (∀ k ∈ keys, k ≠ "" ∧ '/' ∉ k.data) ∧ p = KeysToPath keys

/-- C7: for every normalized path `p`, `KeysToPath (PathToKeys p) = p`;
`PathToKeys` returns the empty key sequence on empty or separator-only
input; `KeysToPath` returns `/` for the empty sequence and otherwise `/`
followed by the keys joined by `/`. -/
theorem pathCodec_roundtrip :
    (∀ p : String, NormalizedPath p → KeysToPath (PathToKeys p) = p) ∧
    (∀ p : String, (∀ c ∈ p.data, c = '/') → PathToKeys p = []) ∧
    KeysToPath [] = "/" ∧
    (∀ keys : List String, keys ≠ [] →
      KeysToPath keys =
        String.mk ('/' :: List.intercalate ['/'] (keys.map String.data))) := by
  refine ⟨?_, ?_, rfl, ?_⟩
  · rintro p ⟨keys, hk, rfl⟩
    rw [pathToKeys_keysToPath keys hk]
  · intro p hp
    have ht : trimCharList '/' p.data = [] := by
      unfold trimCharList
      have h1 : p.data.dropWhile (· = '/') = [] := by
        rw [List.dropWhile_eq_nil_iff]
        intro x hx
        simpa using hp x hx
      rw [h1]
      rfl
    unfold PathToKeys
    rw [ht]
    rfl
  · intro keys hne
    unfold KeysToPath
    rw [if_neg hne]

/-- C7 witness: the round trip at the concrete normalized path
`/apps/http/servers`, and the separator-only input `///` decoding to no
keys. -/
theorem pathCodec_roundtrip_witness :
    KeysToPath (PathToKeys "/apps/http/servers") = "/apps/http/servers" ∧
    PathToKeys "///" = [] :=
  ⟨pathCodec_roundtrip.1 "/apps/http/servers"
      ⟨["apps", "http", "servers"], by decide, by decide⟩,
    pathCodec_roundtrip.2.1 "///" (by decide)⟩

end GoFastCaddy
